import Mathlib

/-!
Verification development for the vsdx-shrinker core
(`src/vsdx_shrinker/core.py`).

A `.vsdx` file is a ZIP archive holding an XML document graph.  The
embedding below models the *extracted* archive after XML parsing: each
XML document of interest is represented by the attribute data the core
actually reads.  Generic ZIP and XML plumbing (extraction, parse errors,
temporary directories, path validation) is out of scope of the claims
and is abstracted away; everything the pruning engine computes from the
parsed data is translated directly from the source.

Notation used in comments: `core.py:NNN` refers to line numbers of
`src/src/vsdx_shrinker/core.py`.
-/

namespace VsdxShrinker

/-- XML namespace constant `VISIO_NS` (core.py:20). -/
def VISIO_NS : String := "http://schemas.microsoft.com/office/visio/2012/main"

/-- XML namespace constant `REL_NS` (core.py:21). -/
def REL_NS : String := "http://schemas.openxmlformats.org/officeDocument/2006/relationships"

/-- XML namespace constant `PKG_REL_NS` (core.py:22). -/
def PKG_REL_NS : String := "http://schemas.openxmlformats.org/package/2006/relationships"

/-- The single-quote character, written numerically. -/
def squote : Char := Char.ofNat 39

/-- A `Rel` child element of a `Master` element, reduced to the
attributes the core reads: the fully qualified id attribute
(key `{REL_NS}id`), the prefixed id attribute (key `r:id`), and any
other attribute keys that end in `}id` or equal `id`
(inspected at core.py:165). `none` means the attribute is absent;
`some s` means it is present with value `s` (possibly empty). -/
structure RelElem where
  idFull : Option String
  idPrefixed : Option String
  otherIdAttrs : List String
deriving DecidableEq, Repr

/-- A `Master` element of `masters.xml`, reduced to the attributes the
core reads: `ID`, `NameU`, and the first `Rel` descendant. -/
structure Master where
  idAttr : Option String
  nameU : Option String
  rel : Option RelElem
deriving DecidableEq, Repr

/-- A `Relationship` element of `masters.xml.rels`, with its `Id` and
`Target` attributes. -/
structure Relationship where
  idAttr : Option String
  target : Option String
deriving DecidableEq, Repr

/-- The extracted archive as the core sees it after XML parsing.

* `hasMastersXml` — whether `visio/masters/masters.xml` exists.
* `catalogNs` — namespace of the catalog root element (`""` if none).
* `masters` — the `Master` elements of the catalog, in document order
  (all are direct children of the root, as produced by Visio).
* `hasRelsFile` — whether `visio/masters/_rels/masters.xml.rels` exists.
* `relsNs` — namespace of the relationship-index root (`""` if none).
* `rels` — the `Relationship` elements of the index, in document order.
* `hasPagesDir` — whether `visio/pages` exists.
* `pages` — raw text of the discovered page documents (page discovery
  via `pages.xml.rels` or the glob fallback, core.py:103-125, is
  abstracted: this list is its output).
* `masterDirFiles` — filenames (no directory separators) and byte sizes
  of the files in `visio/masters`.
* `size` — byte size of the archive file itself. -/
structure Archive where
  hasMastersXml : Bool
  catalogNs : String
  masters : List Master
  hasRelsFile : Bool
  relsNs : String
  rels : List Relationship
  hasPagesDir : Bool
  pages : List String
  masterDirFiles : List (String × Nat)
  size : Nat
deriving DecidableEq, Repr

/-! ## Insertion-ordered dictionaries

Python `dict`s preserve insertion order; assigning to an existing key
updates the value in place.  An association list with these two
operations models them exactly. -/

/-- Python `d[k] = v`: update in place if the key exists, else append. -/
def dinsert {α : Type} : List (String × α) → String → α → List (String × α)
  | [], k, v => [(k, v)]
  | (k', v') :: rest, k, v =>
      if k' = k then (k, v) :: rest else (k', v') :: dinsert rest k v

/-- Python `d.get(k)`: the value at the first (hence unique) matching key. -/
def dget? {α : Type} : List (String × α) → String → Option α
  | [], _ => none
  | (k', v) :: rest, k => if k' = k then some v else dget? rest k

/-- The key set of a dictionary. -/
def keysOf {α : Type} (d : List (String × α)) : Finset String :=
  (d.map Prod.fst).toFinset

theorem dget?_dinsert {α : Type} (d : List (String × α)) (k : String) (v : α)
    (k' : String) :
    dget? (dinsert d k v) k' = if k = k' then some v else dget? d k' := by
  induction d with
  | nil => simp [dinsert, dget?]
  | cons p rest ih =>
      obtain ⟨k0, v0⟩ := p
      by_cases h0 : k0 = k
      · subst h0
        simp only [dinsert, if_pos rfl]
        by_cases h : k0 = k' <;> simp [dget?, h]
      · simp only [dinsert, if_neg h0]
        by_cases h : k0 = k'
        · subst h
          have hkk : ¬ k = k0 := fun hk => h0 hk.symm
          simp [dget?, hkk]
        · simp [dget?, h, ih]

theorem keysOf_dinsert {α : Type} (d : List (String × α)) (k : String) (v : α) :
    keysOf (dinsert d k v) = insert k (keysOf d) := by
  induction d with
  | nil => simp [dinsert, keysOf]
  | cons p rest ih =>
      obtain ⟨k0, v0⟩ := p
      by_cases h0 : k0 = k
      · subst h0; simp [dinsert, keysOf]
      · simp only [dinsert, if_neg h0, keysOf, List.map_cons, List.toFinset_cons]
        rw [show ((dinsert rest k v).map Prod.fst).toFinset = keysOf (dinsert rest k v) from rfl,
          ih]
        ext x
        simp [keysOf, or_left_comm]

theorem dget?_isSome_iff_mem_keys {α : Type} (d : List (String × α)) (k : String) :
    (dget? d k).isSome ↔ k ∈ keysOf d := by
  induction d with
  | nil => simp [dget?, keysOf]
  | cons p rest ih =>
      obtain ⟨k0, v0⟩ := p
      by_cases h0 : k0 = k
      · subst h0; simp [dget?, keysOf]
      · have : ¬ k = k0 := fun h => h0 h.symm
        simp [dget?, keysOf, h0, this, ih]

/-! ## The two reference patterns (core.py:210-211)

`use_pattern = re.compile(r'USE\("([^"]+)"\)')` and
`master_attr_pattern = re.compile(r'\bMaster=["\'](\d+)["\']')`,
each used through `findall`, which returns the captured group of every
non-overlapping match, scanning left to right.  Both patterns are
deterministic (no backtracking can produce a different match at a given
start position), so a left-to-right scanner that advances one character
on failure and past the match on success computes exactly `findall`. -/

/-- Word character for the `\b` boundary (ASCII portion of `\w`). -/
def isWordChar (c : Char) : Bool := c.isAlphanum || c = '_'

/-- Attempt to match `USE\("([^"]+)"\)` at the start of `l`; on success
return the captured name and the remainder after the match. -/
def tryUse (l : List Char) : Option (String × List Char) :=
  match l with
  | c1 :: c2 :: c3 :: c4 :: c5 :: rest =>
      if c1 = 'U' ∧ c2 = 'S' ∧ c3 = 'E' ∧ c4 = '(' ∧ c5 = '"' then
        let cap := rest.takeWhile (fun c => c != '"')
        if cap.isEmpty then none
        else
          match rest.dropWhile (fun c => c != '"') with
          | d1 :: d2 :: rest3 =>
              if d1 = '"' ∧ d2 = ')' then some (⟨cap⟩, rest3) else none
          | _ => none
      else none
  | _ => none

/-- Attempt to match `Master=["\'](\d+)["\']` at the start of `l`
(the `\b` boundary is checked by the caller); on success return the
captured digits and the remainder after the match. -/
def tryMasterAttr (l : List Char) : Option (String × List Char) :=
  match l with
  | c1 :: c2 :: c3 :: c4 :: c5 :: c6 :: c7 :: q :: rest =>
      if c1 = 'M' ∧ c2 = 'a' ∧ c3 = 's' ∧ c4 = 't' ∧ c5 = 'e' ∧ c6 = 'r' ∧ c7 = '=' ∧
          (q = '"' ∨ q = squote) then
        let digs := rest.takeWhile Char.isDigit
        if digs.isEmpty then none
        else
          match rest.dropWhile Char.isDigit with
          | q2 :: rest3 =>
              if q2 = '"' ∨ q2 = squote then some (⟨digs⟩, rest3) else none
          | [] => none
      else none
  | _ => none

/-- `findall` of the `USE` pattern over a character stream.  `fuel`
bounds the recursion structurally; every step consumes at least one
character, so starting with `fuel = l.length` is exact (with positive
remaining fuel the invariant `l.length ≤ fuel` is maintained, and an
empty stream yields no further matches). -/
def scanUse (fuel : Nat) (l : List Char) : List String :=
  match fuel with
  | 0 => []
  | fuel + 1 =>
      match tryUse l with
      | some (cap, rest) => cap :: scanUse fuel rest
      | none =>
          match l with
          | [] => []
          | _ :: cs => scanUse fuel cs

/-- `findall` of the `Master=` pattern over a character stream;
`prevWord` records whether the previous character was a word character
(for the `\b` boundary; `false` at the start of the string).  After a
successful match the last consumed character is a quote, which is not a
word character.  `fuel` bounds the recursion as in `scanUse`. -/
def scanMaster (fuel : Nat) (prevWord : Bool) (l : List Char) : List String :=
  match fuel with
  | 0 => []
  | fuel + 1 =>
      if prevWord then
        match l with
        | [] => []
        | c :: cs => scanMaster fuel (isWordChar c) cs
      else
        match tryMasterAttr l with
        | some (cap, rest) => cap :: scanMaster fuel false rest
        | none =>
            match l with
            | [] => []
            | c :: cs => scanMaster fuel (isWordChar c) cs

/-- `use_pattern.findall(content)` (core.py:217). -/
def useMatches (s : String) : List String := scanUse s.data.length s.data

/-- `master_attr_pattern.findall(content)` (core.py:220). -/
def masterAttrMatches (s : String) : List String :=
  scanMaster s.data.length false s.data

/-! ## Parsing the catalog and the relationship index -/

/-- `_get_rel_id` (core.py:79-83): the qualified id attribute if present
and non-empty (Python `or` falls through on the empty string), else the
prefixed one, else the empty string. -/
def get_rel_id : Option RelElem → String
  | none => ""
  | some r =>
      let a := r.idFull.getD ""
      if a = "" then r.idPrefixed.getD "" else a

/-- The value of `master.get('NameU', '')`. -/
def nameOf (m : Master) : String := m.nameU.getD ""

/-- The record `_parse_masters_xml` builds per named master
(core.py:237-241).  The `element` reference is modelled by `idx`, the
position of the element among the catalog's `Master` children. -/
structure MasterInfo where
  id : String
  rel_id : String
  idx : Nat
deriving DecidableEq, Repr

/-- The loop body of `_parse_masters_xml` (core.py:233-241), with `i` the
index of the next master: entries with an empty name are skipped, later
entries with the same name overwrite earlier ones. -/
def parseMastersAux : Nat → List Master → List (String × MasterInfo) →
    List (String × MasterInfo)
  | _, [], d => d
  | i, m :: ms, d =>
      parseMastersAux (i + 1) ms
        (if nameOf m ≠ "" then
          dinsert d (nameOf m) ⟨m.idAttr.getD "", get_rel_id m.rel, i⟩
        else d)

/-- `_parse_masters_xml` (core.py:227-243), restricted to the dictionary
it returns (the root element is the `masters` list itself). -/
def parse_masters_xml (ms : List Master) : List (String × MasterInfo) :=
  parseMastersAux 0 ms []

/-- `_parse_rels_xml` (core.py:246-257): `{rId: target}` for every
`Relationship` whose `Id` and `Target` are both non-empty. -/
def parse_rels_xml (rs : List Relationship) : List (String × String) :=
  rs.foldl
    (fun d r =>
      let rid := r.idAttr.getD ""
      let tgt := r.target.getD ""
      if rid ≠ "" ∧ tgt ≠ "" then dinsert d rid tgt else d)
    []

/-- The `rels_ids` set of the validator (core.py:172-182): every
non-empty `Id` attribute in the relationship index. -/
def relsIdsOf (rs : List Relationship) : Finset String :=
  (rs.filterMap (fun r =>
    let rid := r.idAttr.getD ""
    if rid = "" then none else some rid)).toFinset

/-! ## Structural validation (core.py:128-199) -/

/-- Check 3 of the validator (core.py:147-169): attribute and `Rel`
checks on the representative sample entry `masters[0]`.  The Python
message renders the `missing` set with `str`; the rendering below fixes
the order `ID`, `NameU`, which the claims never depend on. -/
def sampleErrors (ms : List Master) : List String :=
  match ms with
  | [] => []
  | sample :: _ =>
      let missing :=
        (if sample.idAttr.isSome then [] else ["ID"]) ++
        (if sample.nameU.isSome then [] else ["NameU"])
      (if missing ≠ [] then
        ["Master elements missing required attributes: " ++
          String.intercalate ", " missing]
      else []) ++
      (match sample.rel with
       | none => ["Master elements missing Rel child element"]
       | some r =>
          if r.idFull.isSome ∨ r.idPrefixed.isSome then []
          else
            match r.otherIdAttrs with
            | a :: _ =>
                ["Rel element uses unexpected namespace for id: " ++ a ++
                  "\n    Expected: " ++ REL_NS]
            | [] => ["Rel element missing r:id attribute"])

/-- Check 5 of the validator (core.py:184-192): referential integrity,
run only when there is at least one master and at least one indexed id.
The offending entry is named by `master.get('NameU', master.get('ID',
'unknown'))`. -/
def integrityErrors (ms : List Master) (relsIds : Finset String) : List String :=
  if ms ≠ [] ∧ relsIds ≠ ∅ then
    ms.filterMap (fun m =>
      match m.rel with
      | none => none
      | some r =>
          let rid := get_rel_id (some r)
          if rid ≠ "" ∧ rid ∉ relsIds then
            some ("Master " ++ squote.toString ++
              m.nameU.getD (m.idAttr.getD "unknown") ++ squote.toString ++
              " references non-existent relationship: " ++ rid)
          else none)
  else []

/-- `_validate_vsdx_structure` (core.py:128-199) as the list of error
strings it accumulates, in source order; the function raises
`VsdxFormatError` exactly when this list is non-empty.  It returns
immediately (no errors) when `masters.xml` does not exist. -/
def validate_vsdx_structure (a : Archive) : List String :=
  if ¬ a.hasMastersXml then []
  else
    (if ¬ a.hasRelsFile then ["Missing relationships file: masters.xml.rels"] else []) ++
    (if ¬ a.hasPagesDir then ["Missing pages directory"] else []) ++
    (if a.catalogNs ≠ "" ∧ a.catalogNs ≠ VISIO_NS then
      ["Unexpected namespace: " ++ a.catalogNs ++ "\n    Expected: " ++ VISIO_NS]
    else []) ++
    sampleErrors a.masters ++
    (if a.hasRelsFile ∧ a.relsNs ≠ "" ∧ a.relsNs ≠ PKG_REL_NS then
      ["Unexpected relationships namespace: " ++ a.relsNs ++
        "\n    Expected: " ++ PKG_REL_NS]
    else []) ++
    integrityErrors a.masters (if a.hasRelsFile then relsIdsOf a.rels else ∅)

/-- The composite `VsdxFormatError` message (core.py:194-199). -/
def formatError (errs : List String) : String :=
  "VSDX format validation failed:\n  - " ++ String.intercalate "\n  - " errs ++
    "\n\nThis file may use a newer or different format version."

/-! ## Reference resolution (core.py:202-224) -/

/-- The `id_to_name` inverse lookup (core.py:207), a dict comprehension
over the catalog dictionary. -/
def idToName (info : List (String × MasterInfo)) : List (String × String) :=
  info.foldl (fun d p => dinsert d p.2.id p.1) []

/-- `_find_used_masters` (core.py:202-224): per page, the captures of
the `USE` pattern, plus the names of the ids captured by the `Master=`
pattern that occur in the `id_to_name` lookup. -/
def find_used_masters (pages : List String) (info : List (String × MasterInfo)) :
    Finset String :=
  pages.foldl
    (fun used content =>
      (used ∪ (useMatches content).toFinset) ∪
        ((masterAttrMatches content).filterMap
          (fun i => dget? (idToName info) i)).toFinset)
    ∅

/-! ## Derived per-archive notions shared by analyze and shrink -/

/-- The parsed catalog dictionary of an archive. -/
def infoOf (a : Archive) : List (String × MasterInfo) :=
  parse_masters_xml a.masters

/-- The parsed relationship dictionary of an archive. -/
def relsInfoOf (a : Archive) : List (String × String) :=
  parse_rels_xml a.rels

/-- `used_names` (core.py:333 and core.py:404). -/
def usedOf (a : Archive) : Finset String :=
  find_used_masters a.pages (infoOf a)

/-- `all_names = set(masters_info.keys())` (core.py:334, core.py:406). -/
def allNamesOf (a : Archive) : Finset String := keysOf (infoOf a)

/-- `names_to_remove = all_names - used_names` (core.py:407); also the
`unused_names` of the analysis (core.py:335). -/
def toRemoveOf (a : Archive) : Finset String := allNamesOf a \ usedOf a

/-- `keep_rel_ids` (core.py:410-415): the `rel_id` of every used name
present in the catalog dictionary. -/
def keepRelIdsOf (a : Archive) : Finset String :=
  ((usedOf a).filter (fun n => (dget? (infoOf a) n).isSome)).image
    (fun n => ((dget? (infoOf a) n).map (·.rel_id)).getD "")

/-- `keep_files` (core.py:411-417): the targets of the kept relationship
ids that resolve in the relationship dictionary. -/
def keepFilesOf (a : Archive) : Finset String :=
  ((keepRelIdsOf a).filter (fun rid => (dget? (relsInfoOf a) rid).isSome)).image
    (fun rid => (dget? (relsInfoOf a) rid).getD "")

/-- The element indices removed from the catalog (core.py:421-424): for
each name to remove that is present in the dictionary, the index of its
(last-parsed) element. -/
def removedIdxsOf (a : Archive) : Finset Nat :=
  ((toRemoveOf a).filter (fun n => (dget? (infoOf a) n).isSome)).image
    (fun n => ((dget? (infoOf a) n).map (·.idx)).getD 0)

/-- `masters_removed` (core.py:420-424): one removal per name to remove
found in the dictionary. -/
def mastersRemovedOf (a : Archive) : Nat :=
  ((toRemoveOf a).filter (fun n => (dget? (infoOf a) n).isSome)).card

/-- The catalog children after the removal loop (core.py:421-424):
every element whose index was recorded for removal is dropped. -/
def newMastersOf (a : Archive) : List Master :=
  ((a.masters.enum).filter (fun p => ! decide (p.1 ∈ removedIdxsOf a))).map Prod.snd

/-- The relationship-index children after pruning (core.py:431-434): an
element is removed when its `Id` is non-empty and not kept. -/
def newRelsOf (a : Archive) : List Relationship :=
  a.rels.filter (fun r =>
    let rid := r.idAttr.getD ""
    decide (rid = "") || decide (rid ∈ keepRelIdsOf a))

/-- Whether a filename is matched by `masters_dir.glob('master*.xml')`
(core.py:441).  Filenames contain no separators, so the glob is:
prefix `master`, suffix `.xml`, length at least 10 (the `*` may be
empty). -/
def matchesMasterGlob (f : String) : Bool :=
  List.isPrefixOf "master".data f.data && List.isSuffixOf ".xml".data f.data &&
    decide (10 ≤ f.data.length)

/-- The deletion condition of the cleanup loop (core.py:441-443). -/
def deletedFile (a : Archive) (f : String) : Bool :=
  matchesMasterGlob f && decide (f ≠ "masters.xml") && ! decide (f ∈ keepFilesOf a)

/-- The masters-directory file set after the cleanup loop. -/
def newFilesOf (a : Archive) : List (String × Nat) :=
  a.masterDirFiles.filter (fun p => ! deletedFile a p.1)

/-- The names the cleanup loop deletes, in directory order. -/
def deletedFilesOf (a : Archive) : List String :=
  (a.masterDirFiles.filter (fun p => deletedFile a p.1)).map Prod.fst

/-! ## Size accounting (core.py:45-47, 268-296) -/

/-- `_bytes_to_mb` (core.py:45-47).  Python rounds a float with
banker's rounding; the claims never depend on tie behaviour, so the
standard `round` on exact rationals stands in for it. -/
def bytes_to_mb (b : Int) : Rat :=
  (round ((b : Rat) / 1048576 * 100) : Int) / 100

/-- Rounding to one decimal place, for `reduction_percent`
(core.py:457). -/
def roundTo1 (x : Rat) : Rat := (round (x * 10) : Int) / 10

/-- `_calculate_unused_size` (core.py:281-296): the summed sizes of the
unused masters' target files that exist in the masters directory. -/
def calculate_unused_size (unused : Finset String)
    (info : List (String × MasterInfo)) (relsInfo : List (String × String))
    (files : List (String × Nat)) : Nat :=
  unused.sum (fun name =>
    let relId := ((dget? info name).map (·.rel_id)).getD ""
    let target := (dget? relsInfo relId).getD ""
    if target ≠ "" then (dget? files target).getD 0 else 0)

/-! ## The two operations -/

/-- The analysis result payload (core.py:341-348). -/
structure AnalyzeResult where
  total_masters : Nat
  used_masters : Nat
  unused_masters : Nat
  used_names : List String
  unused_names : List String
  potential_savings_mb : Rat
deriving DecidableEq, Repr

/-- The shrink result payload (core.py:453-460).  `output_path` is a
filesystem path and is not modelled. -/
structure ShrinkResult where
  original_size_mb : Rat
  new_size_mb : Rat
  reduction_mb : Rat
  reduction_percent : Rat
  masters_removed : Nat
deriving DecidableEq, Repr

/-- `_empty_result` (core.py:268-278). -/
def empty_result (originalSize : Nat) : ShrinkResult :=
  let mb := bytes_to_mb originalSize
  ⟨mb, mb, 0, 0, 0⟩

/-- The result record built at core.py:341-348 for an archive that
passed validation. -/
def analyzeResultOf (a : Archive) : AnalyzeResult :=
  { total_masters := (allNamesOf a).card
    used_masters := ((usedOf a) ∩ (allNamesOf a)).card
    unused_masters := (toRemoveOf a).card
    used_names := ((usedOf a) ∩ (allNamesOf a)).sort (· ≤ ·)
    unused_names := (toRemoveOf a).sort (· ≤ ·)
    potential_savings_mb :=
      bytes_to_mb (calculate_unused_size (toRemoveOf a) (infoOf a) (relsInfoOf a)
        a.masterDirFiles) }

/-- `analyze_vsdx` (core.py:299-348).  Archive extraction and the
path checks are abstracted; a `VsdxFormatError` raise is modelled as
`Except.error` carrying the composite message. -/
def analyze_vsdx (a : Archive) : Except String AnalyzeResult :=
  if ¬ a.hasMastersXml then .ok ⟨0, 0, 0, [], [], 0⟩
  else if (validate_vsdx_structure a).isEmpty then .ok (analyzeResultOf a)
  else .error (formatError (validate_vsdx_structure a))

/-- `shrink_vsdx` (core.py:351-460).  `zipSize` abstracts the
compressed size of the re-archived tree (provided by the ZIP library);
the returned `Archive` is the state written to the final output path.
When the catalog is absent the output is a byte copy of the input
(or the untouched input itself when the paths coincide), so the output
state equals `a` in both cases (core.py:391-394).  Backup creation and
path handling are out of scope of the model. -/
def prunedArchive (a : Archive) : Archive :=
  { a with
      masters := newMastersOf a
      rels := newRelsOf a
      masterDirFiles := newFilesOf a }

/-- The final state written to the output path (the pruned working tree
re-archived at its compressed size, core.py:446-450). -/
def shrinkOutput (zipSize : Archive → Nat) (a : Archive) : Archive :=
  { prunedArchive a with size := zipSize (prunedArchive a) }

/-- The result record built at core.py:450-460. -/
def shrinkResultOf (zipSize : Archive → Nat) (a : Archive) : ShrinkResult :=
  { original_size_mb := bytes_to_mb a.size
    new_size_mb := bytes_to_mb (zipSize (prunedArchive a))
    reduction_mb := bytes_to_mb ((a.size : Int) - (zipSize (prunedArchive a) : Int))
    reduction_percent :=
      if a.size ≠ 0 then
        roundTo1 ((((a.size : Int) - (zipSize (prunedArchive a) : Int) : Int) : Rat)
          / (a.size : Rat) * 100)
      else 0
    masters_removed := mastersRemovedOf a }

def shrink_vsdx (zipSize : Archive → Nat) (a : Archive) :
    Except String (ShrinkResult × Archive) :=
  if ¬ a.hasMastersXml then .ok (empty_result a.size, a)
  else if (validate_vsdx_structure a).isEmpty then
    .ok (shrinkResultOf zipSize a, shrinkOutput zipSize a)
  else .error (formatError (validate_vsdx_structure a))

/-- `analyze_vsdx` opens the input read-only, extracts it into a fresh
temporary directory (core.py:315-318) and never writes to the input
path, so the archive on disk after the call is the archive that was
passed in. -/
def analyze_run (a : Archive) : Except String AnalyzeResult × Archive :=
  (analyze_vsdx a, a)

/-! ## Effect order of the shrink operation (core.py:419-448) -/

/-- The externally visible effects of one shrink run, in program
order: the catalog rewrite (core.py:426-428), the relationship-index
rewrite (core.py:436-438), one deletion per unused backing file
(core.py:441-443), and the final re-archive (core.py:446-448).
`copyThrough` is the catalog-absent copy (core.py:391-394). -/
inductive ShrinkEvent where
  | copyThrough
  | writeCatalog
  | writeRels
  | deleteFile (f : String)
  | repack
deriving DecidableEq, Repr

/-- The effect trace of `shrink_vsdx`, following its control flow:
nothing is written when validation fails. -/
def shrinkEvents (a : Archive) : List ShrinkEvent :=
  if ¬ a.hasMastersXml then [.copyThrough]
  else if (validate_vsdx_structure a).isEmpty then
    [.writeCatalog, .writeRels] ++
      (deletedFilesOf a).map ShrinkEvent.deleteFile ++ [.repack]
  else []

/-! ## Helper lemmas about the parsed dictionaries -/

/-- The non-empty names of a catalog, as the validator and parser see
them. -/
def namedNames (ms : List Master) : Finset String :=
  (ms.filterMap (fun m => if nameOf m = "" then none else some (nameOf m))).toFinset

theorem parseMastersAux_dget_some {n : String} {v : MasterInfo} :
    ∀ (ms : List Master) (i : Nat) (d : List (String × MasterInfo)),
      dget? (parseMastersAux i ms d) n = some v →
      dget? d n = some v ∨
        ∃ j m, ms.get? j = some m ∧ nameOf m = n ∧ n ≠ "" ∧
          v = ⟨m.idAttr.getD "", get_rel_id m.rel, i + j⟩
  | [], i, d, h => Or.inl h
  | m :: ms, i, d, h => by
      simp only [parseMastersAux] at h
      rcases parseMastersAux_dget_some ms (i + 1) _ h with h' | ⟨j, m', hget, hname, hne, hv⟩
      · by_cases hm : nameOf m ≠ ""
        · rw [if_pos hm, dget?_dinsert] at h'
          split at h'
          · rename_i heq
            injection h' with hh
            refine Or.inr ⟨0, m, by simp, heq, heq ▸ hm, ?_⟩
            rw [← hh]
            simp
          · exact Or.inl h'
        · rw [if_neg hm] at h'
          exact Or.inl h'
      · refine Or.inr ⟨j + 1, m', by simpa using hget, hname, hne, ?_⟩
        rw [hv]
        have harith : i + 1 + j = i + (j + 1) := by omega
        rw [harith]

theorem keysOf_parseMastersAux :
    ∀ (ms : List Master) (i : Nat) (d : List (String × MasterInfo)),
      keysOf (parseMastersAux i ms d) = keysOf d ∪ namedNames ms
  | [], i, d => by simp [parseMastersAux, namedNames]
  | m :: ms, i, d => by
      simp only [parseMastersAux]
      by_cases hm : nameOf m ≠ ""
      · rw [if_pos hm, keysOf_parseMastersAux ms (i + 1) _, keysOf_dinsert]
        have : namedNames (m :: ms) = insert (nameOf m) (namedNames ms) := by
          simp [namedNames, List.filterMap_cons, if_neg hm]
        rw [this]
        ext x
        simp [or_comm, or_left_comm, or_assoc]
      · rw [if_neg hm]
        rw [keysOf_parseMastersAux ms (i + 1) d]
        have : namedNames (m :: ms) = namedNames ms := by
          simp only [ne_eq, not_not] at hm
          simp [namedNames, List.filterMap_cons, hm]
        rw [this]

theorem allNamesOf_eq_namedNames (a : Archive) :
    allNamesOf a = namedNames a.masters := by
  have := keysOf_parseMastersAux a.masters 0 []
  simpa [allNamesOf, infoOf, parse_masters_xml, keysOf] using this

theorem mem_allNamesOf (a : Archive) {m : Master} (hm : m ∈ a.masters)
    (hne : nameOf m ≠ "") : nameOf m ∈ allNamesOf a := by
  rw [allNamesOf_eq_namedNames]
  simp only [namedNames, List.mem_toFinset, List.mem_filterMap]
  exact ⟨m, hm, by simp [if_neg hne]⟩

theorem dget_infoOf_some (a : Archive) {n : String} {v : MasterInfo}
    (h : dget? (infoOf a) n = some v) :
    ∃ m, a.masters.get? v.idx = some m ∧ nameOf m = n ∧ n ≠ "" ∧
      v.rel_id = get_rel_id m.rel := by
  rcases parseMastersAux_dget_some a.masters 0 [] h with h' | ⟨j, m, hget, hname, hne, hv⟩
  · simp [dget?] at h'
  · refine ⟨m, ?_, hname, hne, by rw [hv]⟩
    have hidx : v.idx = j := by rw [hv]; simp
    rw [hidx]
    exact hget

theorem parse_rels_aux_some {k t : String} :
    ∀ (rs : List Relationship) (d : List (String × String)),
      dget? (rs.foldl (fun d r =>
        let rid := r.idAttr.getD ""
        let tgt := r.target.getD ""
        if rid ≠ "" ∧ tgt ≠ "" then dinsert d rid tgt else d) d) k = some t →
      dget? d k = some t ∨
        ∃ r ∈ rs, r.idAttr.getD "" = k ∧ r.target.getD "" = t ∧ k ≠ "" ∧ t ≠ ""
  | [], d, h => Or.inl h
  | r :: rs, d, h => by
      simp only [List.foldl_cons] at h
      rcases parse_rels_aux_some rs _ h with h' | ⟨r', hr', h1, h2, h3, h4⟩
      · split at h'
        · rename_i hcond
          rw [dget?_dinsert] at h'
          split at h'
          · rename_i heq
            injection h' with hv
            exact Or.inr ⟨r, by simp, heq, hv, heq ▸ hcond.1, hv ▸ hcond.2⟩
          · exact Or.inl h'
        · exact Or.inl h'
      · exact Or.inr ⟨r', by simp [hr'], h1, h2, h3, h4⟩

theorem dget_relsInfoOf_some (a : Archive) {k t : String}
    (h : dget? (relsInfoOf a) k = some t) :
    ∃ r ∈ a.rels, r.idAttr.getD "" = k ∧ r.target.getD "" = t ∧ k ≠ "" ∧ t ≠ "" := by
  rcases parse_rels_aux_some a.rels [] h with h' | h'
  · simp [dget?] at h'
  · exact h'

/-! ## Helper lemmas about reference resolution -/

theorem subset_find_used_foldl (info : List (String × MasterInfo)) :
    ∀ (pages : List String) (acc : Finset String),
      acc ⊆ pages.foldl
        (fun used content =>
          (used ∪ (useMatches content).toFinset) ∪
            ((masterAttrMatches content).filterMap
              (fun i => dget? (idToName info) i)).toFinset) acc
  | [], acc => Finset.Subset.refl acc
  | p :: pages, acc => by
      simp only [List.foldl_cons]
      refine Finset.Subset.trans ?_ (subset_find_used_foldl info pages _)
      intro x hx
      simp [hx]

theorem contrib_subset_find_used (info : List (String × MasterInfo)) :
    ∀ (pages : List String) (p : String), p ∈ pages →
      ∀ acc : Finset String,
        ((useMatches p).toFinset ∪
          ((masterAttrMatches p).filterMap
            (fun i => dget? (idToName info) i)).toFinset) ⊆
        pages.foldl
          (fun used content =>
            (used ∪ (useMatches content).toFinset) ∪
              ((masterAttrMatches content).filterMap
                (fun i => dget? (idToName info) i)).toFinset) acc
  | [], p, hp, acc => absurd hp (List.not_mem_nil p)
  | q :: pages, p, hp, acc => by
      simp only [List.foldl_cons]
      rcases List.mem_cons.mp hp with rfl | hp'
      · refine Finset.Subset.trans ?_ (subset_find_used_foldl info pages _)
        intro x hx
        rcases Finset.mem_union.mp hx with hx | hx
        · exact Finset.mem_union_left _ (Finset.mem_union_right _ hx)
        · exact Finset.mem_union_right _ hx
      · exact contrib_subset_find_used info pages p hp' _

theorem mem_usedOf_of_useMatch (a : Archive) {p n : String}
    (hp : p ∈ a.pages) (hn : n ∈ useMatches p) : n ∈ usedOf a := by
  refine contrib_subset_find_used (infoOf a) a.pages p hp ∅ ?_
  exact Finset.mem_union_left _ (List.mem_toFinset.mpr hn)

theorem mem_usedOf_of_idMatch (a : Archive) {p i n : String}
    (hp : p ∈ a.pages) (hi : i ∈ masterAttrMatches p)
    (hl : dget? (idToName (infoOf a)) i = some n) : n ∈ usedOf a := by
  refine contrib_subset_find_used (infoOf a) a.pages p hp ∅ ?_
  refine Finset.mem_union_right _ (List.mem_toFinset.mpr ?_)
  exact List.mem_filterMap.mpr ⟨i, hi, hl⟩

/-! ## Helper lemmas about enumerated filtering -/

theorem enumFrom_filter_map_snd {α : Type} (P : Nat × α → Bool) (Q : α → Bool) :
    ∀ (i : Nat) (l : List α),
      (∀ j a, l.get? j = some a → P (i + j, a) = Q a) →
      ((List.enumFrom i l).filter P).map Prod.snd = l.filter Q
  | i, [], _ => rfl
  | i, a :: l, h => by
      have h0 : P (i, a) = Q a := by
        have := h 0 a (by simp)
        simpa using this
      have htail : ∀ j b, l.get? j = some b → P (i + 1 + j, b) = Q b := by
        intro j b hb
        have := h (j + 1) b (by simpa using hb)
        have harith : i + (j + 1) = i + 1 + j := by omega
        rwa [harith] at this
      simp only [List.enumFrom, List.filter_cons, h0]
      cases hq : Q a
      · simpa [hq] using enumFrom_filter_map_snd P Q (i + 1) l htail
      · simpa [hq] using enumFrom_filter_map_snd P Q (i + 1) l htail

/-! ## Inversion lemmas for the two operations -/

theorem shrink_ok_inv {z : Archive → Nat} {a : Archive} {res : ShrinkResult}
    {out : Archive} (hm : a.hasMastersXml = true)
    (h : shrink_vsdx z a = .ok (res, out)) :
    validate_vsdx_structure a = [] ∧
    res = shrinkResultOf z a ∧ out = shrinkOutput z a := by
  unfold shrink_vsdx at h
  rw [hm] at h
  rw [if_neg (by simp)] at h
  split at h
  · rename_i hempty
    injection h with hpair
    injection hpair with h1 h2
    exact ⟨List.isEmpty_iff.mp hempty, h1.symm, h2.symm⟩
  · exact absurd h (by simp)

theorem analyze_ok_inv {a : Archive} {r : AnalyzeResult}
    (hm : a.hasMastersXml = true) (h : analyze_vsdx a = .ok r) :
    validate_vsdx_structure a = [] ∧ r = analyzeResultOf a := by
  unfold analyze_vsdx at h
  rw [hm] at h
  rw [if_neg (by simp)] at h
  split at h
  · rename_i hempty
    injection h with hr
    exact ⟨List.isEmpty_iff.mp hempty, hr.symm⟩
  · exact absurd h (by simp)

/-! ## Concrete archives used by witnesses and counterexamples -/

/-- The example scenario of the specification (§8): masters `A`, `B`,
`C` with ids 1-3 and relationships `rId1`-`rId3`; one page contains
`USE("A")` and a shape with `Master="2"`. -/
def archEx : Archive :=
  { hasMastersXml := true
    catalogNs := VISIO_NS
    masters :=
      [⟨some "1", some "A", some ⟨some "rId1", none, []⟩⟩,
       ⟨some "2", some "B", some ⟨some "rId2", none, []⟩⟩,
       ⟨some "3", some "C", some ⟨some "rId3", none, []⟩⟩]
    hasRelsFile := true
    relsNs := PKG_REL_NS
    rels :=
      [⟨some "rId1", some "master1.xml"⟩, ⟨some "rId2", some "master2.xml"⟩,
       ⟨some "rId3", some "master3.xml"⟩]
    hasPagesDir := true
    pages := ["USE(\"A\") and <Shape Master=\"2\"/>"]
    masterDirFiles :=
      [("masters.xml", 0), ("master1.xml", 0), ("master2.xml", 0),
       ("master3.xml", 0)]
    size := 0 }

/-- An archive with no node catalog at the conventional location. -/
def archNoCatalog : Archive :=
  { hasMastersXml := false
    catalogNs := ""
    masters := []
    hasRelsFile := false
    relsNs := ""
    rels := []
    hasPagesDir := false
    pages := []
    masterDirFiles := []
    size := 0 }

/-! ## The claims -/

/-- Claim C3 (Conservation): for every archive the analysis accepts,
`used_masters + unused_masters = total_masters`. -/
theorem analyze_conservation (a : Archive) (r : AnalyzeResult)
    (h : analyze_vsdx a = .ok r) :
    r.used_masters + r.unused_masters = r.total_masters := by
  by_cases hm : a.hasMastersXml = true
  · obtain ⟨-, hr⟩ := analyze_ok_inv hm h
    subst hr
    show ((usedOf a) ∩ (allNamesOf a)).card + (toRemoveOf a).card
      = (allNamesOf a).card
    rw [Finset.inter_comm]
    exact Finset.card_inter_add_card_sdiff (allNamesOf a) (usedOf a)
  · unfold analyze_vsdx at h
    rw [if_pos hm] at h
    injection h with hr
    rw [← hr]
    rfl

/-- Witness for C3 at the specification's example archive. -/
theorem analyze_conservation_witness :
    (analyzeResultOf archEx).used_masters + (analyzeResultOf archEx).unused_masters
      = (analyzeResultOf archEx).total_masters :=
  analyze_conservation archEx (analyzeResultOf archEx) (by rfl)

/-- Claim C6 (Absent catalog): when the node-catalog file is absent,
analysis returns the all-zero result, shrink returns the zero-reduction
result with the output state equal to the input (a byte copy when the
output path differs, a no-op when it coincides), and neither operation
errors. -/
theorem absent_catalog_zero_result (a : Archive) (z : Archive → Nat)
    (h : a.hasMastersXml = false) :
    analyze_vsdx a = .ok ⟨0, 0, 0, [], [], 0⟩ ∧
    shrink_vsdx z a = .ok (empty_result a.size, a) ∧
    (empty_result a.size).reduction_mb = 0 ∧
    (empty_result a.size).reduction_percent = 0 ∧
    (empty_result a.size).masters_removed = 0 ∧
    (empty_result a.size).new_size_mb = (empty_result a.size).original_size_mb := by
  unfold analyze_vsdx shrink_vsdx
  rw [h]
  simp [empty_result]

/-- Witness for C6 at a concrete catalog-less archive. -/
theorem absent_catalog_zero_result_witness :
    analyze_vsdx archNoCatalog = .ok ⟨0, 0, 0, [], [], 0⟩ ∧
    shrink_vsdx (fun _ => 0) archNoCatalog
      = .ok (empty_result archNoCatalog.size, archNoCatalog) ∧
    (empty_result archNoCatalog.size).reduction_mb = 0 ∧
    (empty_result archNoCatalog.size).reduction_percent = 0 ∧
    (empty_result archNoCatalog.size).masters_removed = 0 ∧
    (empty_result archNoCatalog.size).new_size_mb
      = (empty_result archNoCatalog.size).original_size_mb :=
  absent_catalog_zero_result archNoCatalog (fun _ => 0) (by rfl)

/-- Claim C7 (Name vs. id equivalence): a master referenced on a page
solely through a `Master="ID"` attribute whose id occurs in the
id-to-name lookup lands in `used_names` exactly like a master referenced
solely through `USE("name")`; neither is pruned. -/
theorem name_id_reference_equivalence (a : Archive) (p : String)
    (hp : p ∈ a.pages) (i n n' : String) (hi : i ∈ masterAttrMatches p)
    (hl : dget? (idToName (infoOf a)) i = some n) (hn' : n' ∈ useMatches p) :
    (n ∈ usedOf a ∧ n ∉ toRemoveOf a) ∧ (n' ∈ usedOf a ∧ n' ∉ toRemoveOf a) := by
  have h1 := mem_usedOf_of_idMatch a hp hi hl
  have h2 := mem_usedOf_of_useMatch a hp hn'
  refine ⟨⟨h1, ?_⟩, ⟨h2, ?_⟩⟩ <;>
    simp [toRemoveOf, Finset.mem_sdiff, h1, h2]

/-- Witness for C7: at the example archive, `B` (referenced only by
`Master="2"`) and `A` (referenced only by `USE("A")`) are both used and
unpruned. -/
theorem name_id_reference_equivalence_witness :
    ("B" ∈ usedOf archEx ∧ "B" ∉ toRemoveOf archEx) ∧
    ("A" ∈ usedOf archEx ∧ "A" ∉ toRemoveOf archEx) :=
  name_id_reference_equivalence archEx "USE(\"A\") and <Shape Master=\"2\"/>"
    (by decide) "2" "B" "A" (by decide) (by decide) (by decide)

/-- Claim C8 (Idempotence of analysis): running analysis twice on the
same unmodified archive yields identical result values; the first run
leaves the archive unchanged, so the second sees the same input. -/
theorem analyze_idempotent (a : Archive) :
    (analyze_run ((analyze_run a).2)).1 = (analyze_run a).1 ∧
    (analyze_run a).2 = a :=
  ⟨rfl, rfl⟩

/-- Claim C9 (Effect order of shrink): whenever a backing-file deletion
occurs in the shrink effect trace, the catalog rewrite and the
relationship-index rewrite precede it (positions 0 and 1), and the
re-archive is the final event, strictly after every deletion. -/
theorem shrink_effect_order (a : Archive) (i : Nat) (f : String)
    (h : (shrinkEvents a)[i]? = some (.deleteFile f)) :
    (shrinkEvents a)[0]? = some ShrinkEvent.writeCatalog ∧
    (shrinkEvents a)[1]? = some ShrinkEvent.writeRels ∧
    2 ≤ i ∧ i + 1 < (shrinkEvents a).length ∧
    (shrinkEvents a)[(shrinkEvents a).length - 1]? = some ShrinkEvent.repack := by
  by_cases hm : a.hasMastersXml = true
  · by_cases hv : (validate_vsdx_structure a).isEmpty = true
    · have he : shrinkEvents a =
          (ShrinkEvent.writeCatalog :: ShrinkEvent.writeRels ::
            (deletedFilesOf a).map ShrinkEvent.deleteFile) ++ [ShrinkEvent.repack] := by
        unfold shrinkEvents
        rw [if_neg (not_not_intro hm), if_pos hv]
        simp
      rw [he] at h ⊢
      set D := (deletedFilesOf a).map ShrinkEvent.deleteFile with hD
      match i with
      | 0 => simp at h
      | 1 => simp at h
      | j + 2 =>
          have hj : (D ++ [ShrinkEvent.repack])[j]? = some (.deleteFile f) := by
            simpa using h
          have hjlt : j < D.length := by
            by_contra hge
            push_neg at hge
            rw [List.getElem?_append_right hge] at hj
            match hd : j - D.length with
            | 0 => rw [hd] at hj; simp at hj
            | k + 1 => rw [hd] at hj; simp at hj
          have hlen : ((ShrinkEvent.writeCatalog :: ShrinkEvent.writeRels :: D) ++
              [ShrinkEvent.repack]).length = D.length + 3 := by
            simp
          refine ⟨by simp, by simp, by omega, ?_, ?_⟩
          · rw [hlen]; omega
          · rw [hlen]
            show ((ShrinkEvent.writeCatalog :: ShrinkEvent.writeRels :: D) ++
              [ShrinkEvent.repack])[D.length + 3 - 1]? = some ShrinkEvent.repack
            have hpre : (ShrinkEvent.writeCatalog :: ShrinkEvent.writeRels :: D).length
                = D.length + 2 := by simp
            have : D.length + 3 - 1 = D.length + 2 := by omega
            rw [this, List.getElem?_append_right (by rw [hpre])]
            rw [hpre]
            simp
    · have he : shrinkEvents a = [] := by
        unfold shrinkEvents
        rw [if_neg (not_not_intro hm), if_neg hv]
      rw [he] at h
      simp at h
  · have he : shrinkEvents a = [ShrinkEvent.copyThrough] := by
      unfold shrinkEvents
      rw [if_pos hm]
    rw [he] at h
    match i with
    | 0 => simp at h
    | i + 1 => simp at h

/-- Witness for C9 at the example archive, whose trace deletes
`master3.xml` at position 2. -/
theorem shrink_effect_order_witness :
    (shrinkEvents archEx)[0]? = some ShrinkEvent.writeCatalog ∧
    (shrinkEvents archEx)[1]? = some ShrinkEvent.writeRels ∧
    2 ≤ 2 ∧ 2 + 1 < (shrinkEvents archEx).length ∧
    (shrinkEvents archEx)[(shrinkEvents archEx).length - 1]?
      = some ShrinkEvent.repack :=
  shrink_effect_order archEx 2 "master3.xml" (by decide)

/-! ## Claims C5 and C2: validation reporting -/

theorem integrity_error_mem (ms : List Master) (relsIds : Finset String)
    (hids : relsIds ≠ ∅) (m : Master) (hm : m ∈ ms) (r : RelElem)
    (hrel : m.rel = some r) (hrid : get_rel_id (some r) ≠ "")
    (hnot : get_rel_id (some r) ∉ relsIds) :
    ("Master " ++ squote.toString ++ m.nameU.getD (m.idAttr.getD "unknown") ++
      squote.toString ++ " references non-existent relationship: " ++
      get_rel_id (some r)) ∈ integrityErrors ms relsIds := by
  unfold integrityErrors
  rw [if_pos ⟨List.ne_nil_of_mem hm, hids⟩]
  apply List.mem_filterMap.mpr
  refine ⟨m, hm, ?_⟩
  rw [hrel]
  have hcond : get_rel_id (some r) ≠ "" ∧ get_rel_id (some r) ∉ relsIds :=
    ⟨hrid, hnot⟩
  simp only [if_pos hcond]

theorem mem_validate_of_mem_integrity (a : Archive) (hm : a.hasMastersXml = true)
    (e : String)
    (he : e ∈ integrityErrors a.masters
      (if a.hasRelsFile then relsIdsOf a.rels else ∅)) :
    e ∈ validate_vsdx_structure a := by
  unfold validate_vsdx_structure
  rw [if_neg (not_not_intro hm)]
  simp only [List.mem_append]
  exact Or.inr he

theorem mem_validate_of_mem_sample (a : Archive) (hm : a.hasMastersXml = true)
    (e : String) (he : e ∈ sampleErrors a.masters) :
    e ∈ validate_vsdx_structure a := by
  unfold validate_vsdx_structure
  rw [if_neg (not_not_intro hm)]
  simp only [List.mem_append]
  exact Or.inl (Or.inl (Or.inr he))

/-- The archive of the C5 counterexample: one catalog entry whose
relationship-id `rId9` resolves nowhere, with a present but empty
relationship index. -/
def archEmptyIndex : Archive :=
  { hasMastersXml := true
    catalogNs := VISIO_NS
    masters := [⟨some "1", some "A", some ⟨some "rId9", none, []⟩⟩]
    hasRelsFile := true
    relsNs := PKG_REL_NS
    rels := []
    hasPagesDir := true
    pages := []
    masterDirFiles := [("masters.xml", 0)]
    size := 0 }

/-- Counterexample to C5 as stated: in `archEmptyIndex` the sole
catalog entry's relationship-id `rId9` does not resolve to any entry of
the relationship index, yet validation reports no error at all (the
referential-integrity check only runs when the index holds at least one
id, core.py:185). -/
theorem unresolved_id_unreported_with_empty_index :
    (∀ m ∈ archEmptyIndex.masters,
      get_rel_id m.rel = "rId9" ∧ "rId9" ∉ relsIdsOf archEmptyIndex.rels) ∧
    archEmptyIndex.masters ≠ [] ∧
    validate_vsdx_structure archEmptyIndex = [] := by decide

/-- Claim C5, amended: during validation, every catalog entry carrying a
non-empty relationship-id that does not resolve against a *non-empty*
relationship index is reported individually, named by its symbolic name,
or by its identifier when the name attribute is absent (`unknown` when
both are absent). -/
theorem unresolved_relationship_reported (a : Archive)
    (hm : a.hasMastersXml = true) (hrels : a.hasRelsFile = true)
    (hids : relsIdsOf a.rels ≠ ∅) (m : Master) (hmem : m ∈ a.masters)
    (r : RelElem) (hrel : m.rel = some r) (hrid : get_rel_id (some r) ≠ "")
    (hnot : get_rel_id (some r) ∉ relsIdsOf a.rels) :
    ("Master " ++ squote.toString ++ m.nameU.getD (m.idAttr.getD "unknown") ++
      squote.toString ++ " references non-existent relationship: " ++
      get_rel_id (some r)) ∈ validate_vsdx_structure a := by
  apply mem_validate_of_mem_integrity a hm
  rw [if_pos (by rw [hrels] : (a.hasRelsFile : Prop))]
  exact integrity_error_mem a.masters (relsIdsOf a.rels) hids m hmem r hrel
    hrid hnot

/-- The archive of the C5 witness: entry `Broken` references `rId9`,
which is missing from a non-empty index. -/
def archUnresolved : Archive :=
  { hasMastersXml := true
    catalogNs := VISIO_NS
    masters :=
      [⟨some "1", some "A", some ⟨some "rId1", none, []⟩⟩,
       ⟨some "7", some "Broken", some ⟨some "rId9", none, []⟩⟩]
    hasRelsFile := true
    relsNs := PKG_REL_NS
    rels := [⟨some "rId1", some "master1.xml"⟩]
    hasPagesDir := true
    pages := ["USE(\"A\")"]
    masterDirFiles := [("masters.xml", 0), ("master1.xml", 0)]
    size := 0 }

/-- Witness for the amended C5: the unresolved entry `Broken` is
reported by name. -/
theorem unresolved_relationship_reported_witness :
    ("Master " ++ squote.toString ++ "Broken" ++ squote.toString ++
      " references non-existent relationship: " ++ "rId9")
      ∈ validate_vsdx_structure archUnresolved :=
  unresolved_relationship_reported archUnresolved rfl rfl (by decide)
    ⟨some "7", some "Broken", some ⟨some "rId9", none, []⟩⟩ (by decide)
    ⟨some "rId9", none, []⟩ rfl (by decide) (by decide)

theorem sampleErrors_ne_nil (m0 : Master) (ms' : List Master)
    (h : m0.idAttr = none ∨ m0.nameU = none) : sampleErrors (m0 :: ms') ≠ [] := by
  unfold sampleErrors
  rcases h with h | h <;> simp [h]

/-- The archive of the C2 counterexample: the second catalog entry has
no `NameU` attribute, the first is well-formed. -/
def archBadSecond : Archive :=
  { hasMastersXml := true
    catalogNs := VISIO_NS
    masters :=
      [⟨some "1", some "A", some ⟨some "rId1", none, []⟩⟩,
       ⟨some "2", none, some ⟨some "rId2", none, []⟩⟩]
    hasRelsFile := true
    relsNs := PKG_REL_NS
    rels := [⟨some "rId1", some "master1.xml"⟩, ⟨some "rId2", some "master2.xml"⟩]
    hasPagesDir := true
    pages := ["USE(\"A\")"]
    masterDirFiles := [("masters.xml", 0), ("master1.xml", 0), ("master2.xml", 0)]
    size := 0 }

/-- Counterexample to C2 as stated: `archBadSecond` has a catalog entry
lacking the `name` attribute, yet both analysis and shrink succeed —
the entry-shape check inspects only the representative first entry
(core.py:149-154). -/
theorem validation_skips_nonsample_entry :
    (∃ m ∈ archBadSecond.masters, m.nameU = none) ∧
    (analyze_vsdx archBadSecond).toOption.isSome = true ∧
    ((shrink_vsdx (fun _ => 0) archBadSecond).toOption.isSome = true) := by
  refine ⟨⟨⟨some "2", none, some ⟨some "rId2", none, []⟩⟩, by decide, rfl⟩, ?_, ?_⟩
  · rfl
  · rfl

/-- Claim C2, amended: when the *first* catalog entry lacks a `name` or
`id` attribute, or some catalog entry carries a non-empty
relationship-id that fails to resolve against a non-empty relationship
index, both analysis and shrink fail with the composite format error
and the shrink effect trace is empty — nothing is rewritten or
deleted. -/
theorem validation_failure_aborts (a : Archive) (z : Archive → Nat)
    (hm : a.hasMastersXml = true)
    (hbad :
      (∃ m0 ms', a.masters = m0 :: ms' ∧ (m0.idAttr = none ∨ m0.nameU = none)) ∨
      (a.hasRelsFile = true ∧ relsIdsOf a.rels ≠ ∅ ∧
        ∃ m ∈ a.masters, ∃ r, m.rel = some r ∧ get_rel_id (some r) ≠ "" ∧
          get_rel_id (some r) ∉ relsIdsOf a.rels)) :
    (∃ e, analyze_vsdx a = .error e) ∧ (∃ e, shrink_vsdx z a = .error e) ∧
    shrinkEvents a = [] := by
  have hne : validate_vsdx_structure a ≠ [] := by
    rcases hbad with ⟨m0, ms', hsplit, hattr⟩ | ⟨hrels, hids, m, hmem, r, hrel, hrid, hnot⟩
    · have h1 := sampleErrors_ne_nil m0 ms' hattr
      obtain ⟨e, he⟩ := List.exists_mem_of_ne_nil _ h1
      rw [← hsplit] at he
      exact List.ne_nil_of_mem (mem_validate_of_mem_sample a hm e he)
    · have hmem2 := integrity_error_mem a.masters (relsIdsOf a.rels) hids m hmem
        r hrel hrid hnot
      have hmem3 : ("Master " ++ squote.toString ++
          m.nameU.getD (m.idAttr.getD "unknown") ++ squote.toString ++
          " references non-existent relationship: " ++ get_rel_id (some r))
          ∈ validate_vsdx_structure a := by
        apply mem_validate_of_mem_integrity a hm
        rw [if_pos (by rw [hrels] : (a.hasRelsFile : Prop))]
        exact hmem2
      exact List.ne_nil_of_mem hmem3
  have hfalse : ¬ ((validate_vsdx_structure a).isEmpty = true) := by
    simpa [List.isEmpty_iff] using hne
  refine ⟨⟨formatError (validate_vsdx_structure a), ?_⟩,
    ⟨formatError (validate_vsdx_structure a), ?_⟩, ?_⟩
  · unfold analyze_vsdx
    rw [if_neg (not_not_intro hm), if_neg hfalse]
  · unfold shrink_vsdx
    rw [if_neg (not_not_intro hm), if_neg hfalse]
  · unfold shrinkEvents
    rw [if_neg (not_not_intro hm), if_neg hfalse]

/-- The archive of the C2 witness: the first (sample) entry has no `ID`
attribute. -/
def archBadSample : Archive :=
  { hasMastersXml := true
    catalogNs := VISIO_NS
    masters := [⟨none, some "A", some ⟨some "rId1", none, []⟩⟩]
    hasRelsFile := true
    relsNs := PKG_REL_NS
    rels := [⟨some "rId1", some "master1.xml"⟩]
    hasPagesDir := true
    pages := ["USE(\"A\")"]
    masterDirFiles := [("masters.xml", 0), ("master1.xml", 0)]
    size := 0 }

/-- Witness for the amended C2 at `archBadSample`. -/
theorem validation_failure_aborts_witness :
    (∃ e, analyze_vsdx archBadSample = .error e) ∧
    (∃ e, shrink_vsdx (fun _ => 0) archBadSample = .error e) ∧
    shrinkEvents archBadSample = [] :=
  validation_failure_aborts archBadSample (fun _ => 0) rfl
    (Or.inl ⟨⟨none, some "A", some ⟨some "rId1", none, []⟩⟩, [], rfl, Or.inl rfl⟩)

/-! ## Claim C10: legacy entries with an empty name -/

/-- The archive of the C10 counterexample: the legacy entry (empty
`NameU`) shares its relationship-id `rId1` with the used entry `A`. -/
def archLegacyShared : Archive :=
  { hasMastersXml := true
    catalogNs := VISIO_NS
    masters :=
      [⟨some "1", some "A", some ⟨some "rId1", none, []⟩⟩,
       ⟨some "2", some "", some ⟨some "rId1", none, []⟩⟩]
    hasRelsFile := true
    relsNs := PKG_REL_NS
    rels := [⟨some "rId1", some "master1.xml"⟩]
    hasPagesDir := true
    pages := ["USE(\"A\")"]
    masterDirFiles := [("masters.xml", 0), ("master1.xml", 0)]
    size := 0 }

/-- Counterexample to C10 as stated: in `archLegacyShared` the legacy
entry's relationship-id `rId1` is also the relationship-id of the
retained entry `A`, so after shrinking its relationship-index entry
remains and its backing file `master1.xml` is not deleted. -/
theorem legacy_shared_relid_counterexample :
    (∃ m ∈ archLegacyShared.masters, m.nameU = some "" ∧
      get_rel_id m.rel = "rId1") ∧
    ((shrink_vsdx (fun _ => 0) archLegacyShared).toOption.map
        (fun p => (p.2.rels, p.2.masterDirFiles))) =
      some ([⟨some "rId1", some "master1.xml"⟩],
        [("masters.xml", 0), ("master1.xml", 0)]) := by
  refine ⟨⟨⟨some "2", some "", some ⟨some "rId1", none, []⟩⟩, by decide, by decide⟩, ?_⟩
  rfl

/-- Claim C10, amended: a catalog entry with an empty name is always
kept in the catalog document; provided its relationship-id is non-empty
and not recorded for any retained named entry, its relationship-index
entries are removed, and provided additionally that its resolved target
follows the `master*.xml` convention, differs from the catalog document
and is not a kept file, its backing file is deleted. -/
theorem legacy_entry_pruning (z : Archive → Nat) (a : Archive)
    (res : ShrinkResult) (out : Archive)
    (hok : shrink_vsdx z a = .ok (res, out)) (hm : a.hasMastersXml = true)
    (m : Master) (hmem : m ∈ a.masters) (hname : nameOf m = "")
    (rid : String) (hrid : rid = get_rel_id m.rel) (hrne : rid ≠ "")
    (hnotkeep : rid ∉ keepRelIdsOf a) (t : String)
    (ht : dget? (relsInfoOf a) rid = some t)
    (hglob : matchesMasterGlob t = true) (htm : t ≠ "masters.xml")
    (hnotfile : t ∉ keepFilesOf a) :
    m ∈ out.masters ∧
    (∀ r ∈ out.rels, r.idAttr.getD "" ≠ rid) ∧
    (∀ p ∈ out.masterDirFiles, p.1 ≠ t) := by
  obtain ⟨-, -, hout⟩ := shrink_ok_inv hm hok
  subst hout
  refine ⟨?_, ?_, ?_⟩
  · show m ∈ newMastersOf a
    obtain ⟨i, hget⟩ := List.mem_iff_get.mp hmem
    have hgetq : a.masters.get? i.1 = some m := by
      rw [List.get?_eq_get i.2]
      exact congrArg some hget
    have hnR : i.1 ∉ removedIdxsOf a := by
      intro hmemR
      unfold removedIdxsOf at hmemR
      obtain ⟨n, hn, hidx⟩ := Finset.mem_image.mp hmemR
      obtain ⟨hnrem, hsome⟩ := Finset.mem_filter.mp hn
      obtain ⟨v, hv⟩ := Option.isSome_iff_exists.mp hsome
      rw [hv] at hidx
      simp at hidx
      obtain ⟨m', hm', hnm', hne', -⟩ := dget_infoOf_some a hv
      rw [hidx] at hm'
      rw [hgetq] at hm'
      injection hm' with hm'
      rw [← hm'] at hnm'
      exact hne' (hnm' ▸ hname)
    unfold newMastersOf
    refine List.mem_map.mpr ⟨(i.1, m), ?_, rfl⟩
    refine List.mem_filter.mpr ⟨?_, ?_⟩
    · rw [List.mem_enum_iff_getElem?]
      rw [← List.get?_eq_getElem?]
      exact hgetq
    · show (! decide ((i.1, m).1 ∈ removedIdxsOf a)) = true
      rw [decide_eq_false hnR]
      rfl
  · intro r hr
    show r.idAttr.getD "" ≠ rid
    have hr' := List.mem_filter.mp hr
    intro heq
    have hcond := hr'.2
    rw [heq] at hcond
    simp only [Bool.or_eq_true, decide_eq_true_eq] at hcond
    rcases hcond with h | h
    · exact hrne h
    · exact hnotkeep h
  · intro p hp
    show p.1 ≠ t
    have hp' := List.mem_filter.mp hp
    intro heq
    have hcond := hp'.2
    rw [heq] at hcond
    unfold deletedFile at hcond
    simp [hglob, htm, hnotfile] at hcond

/-- The archive of the C10 witness: legacy entry with its own
relationship `rId2` and backing file `master2.xml`. -/
def archLegacyPruned : Archive :=
  { hasMastersXml := true
    catalogNs := VISIO_NS
    masters :=
      [⟨some "1", some "A", some ⟨some "rId1", none, []⟩⟩,
       ⟨some "2", some "", some ⟨some "rId2", none, []⟩⟩]
    hasRelsFile := true
    relsNs := PKG_REL_NS
    rels := [⟨some "rId1", some "master1.xml"⟩, ⟨some "rId2", some "master2.xml"⟩]
    hasPagesDir := true
    pages := ["USE(\"A\")"]
    masterDirFiles := [("masters.xml", 0), ("master1.xml", 0), ("master2.xml", 0)]
    size := 0 }

/-- Witness for the amended C10 at `archLegacyPruned`. -/
theorem legacy_entry_pruning_witness :
    (⟨some "2", some "", some ⟨some "rId2", none, []⟩⟩ : Master)
      ∈ (shrinkOutput (fun _ => 0) archLegacyPruned).masters ∧
    (∀ r ∈ (shrinkOutput (fun _ => 0) archLegacyPruned).rels,
      r.idAttr.getD "" ≠ "rId2") ∧
    (∀ p ∈ (shrinkOutput (fun _ => 0) archLegacyPruned).masterDirFiles,
      p.1 ≠ "master2.xml") :=
  legacy_entry_pruning (fun _ => 0) archLegacyPruned
    (shrinkResultOf (fun _ => 0) archLegacyPruned)
    (shrinkOutput (fun _ => 0) archLegacyPruned) rfl rfl
    ⟨some "2", some "", some ⟨some "rId2", none, []⟩⟩ (by decide) rfl
    "rId2" (by decide) (by decide) (by decide)
    "master2.xml" (by decide) (by decide) (by decide) (by decide)

/-! ## Claim C4: round-trip safety -/

/-- The archive of the C4 counterexample: no master is unused, but the
relationship index holds an orphan entry `rId2` referenced by no
catalog entry. -/
def archOrphanRel : Archive :=
  { hasMastersXml := true
    catalogNs := VISIO_NS
    masters := [⟨some "1", some "A", some ⟨some "rId1", none, []⟩⟩]
    hasRelsFile := true
    relsNs := PKG_REL_NS
    rels := [⟨some "rId1", some "master1.xml"⟩, ⟨some "rId2", some "orphan.xml"⟩]
    hasPagesDir := true
    pages := ["USE(\"A\")"]
    masterDirFiles := [("masters.xml", 0), ("master1.xml", 0)]
    size := 0 }

/-- Counterexample to C4 as stated: `archOrphanRel` has zero unused
masters, yet shrinking drops the orphan relationship entry `rId2`, so
the rewritten relationship index does not have the same set of entries
as the original. -/
theorem shrink_drops_orphan_relationship :
    allNamesOf archOrphanRel ⊆ usedOf archOrphanRel ∧
    ((shrink_vsdx (fun _ => 0) archOrphanRel).toOption.map (fun p => p.2.rels)) =
      some [⟨some "rId1", some "master1.xml"⟩] ∧
    archOrphanRel.rels ≠ [⟨some "rId1", some "master1.xml"⟩] := by
  refine ⟨by decide, rfl, by decide⟩

/-- Claim C4, amended: shrinking an archive with zero unused masters
leaves the catalog document unchanged, and also leaves the relationship
index unchanged provided every relationship entry with a non-empty id is
recorded for some (necessarily retained) catalog entry — orphan
relationship entries are still pruned. -/
theorem shrink_roundtrip_safety (z : Archive → Nat) (a : Archive)
    (res : ShrinkResult) (out : Archive)
    (hok : shrink_vsdx z a = .ok (res, out))
    (hnone : allNamesOf a ⊆ usedOf a)
    (horph : ∀ r ∈ a.rels,
      r.idAttr.getD "" = "" ∨ r.idAttr.getD "" ∈ keepRelIdsOf a) :
    out.masters = a.masters ∧ out.rels = a.rels := by
  by_cases hm : a.hasMastersXml = true
  · obtain ⟨-, -, hout⟩ := shrink_ok_inv hm hok
    subst hout
    constructor
    · show newMastersOf a = a.masters
      have hrem : toRemoveOf a = ∅ := by
        unfold toRemoveOf
        exact Finset.sdiff_eq_empty_iff_subset.mpr hnone
      have hidx : removedIdxsOf a = ∅ := by
        unfold removedIdxsOf
        rw [hrem]
        simp
      unfold newMastersOf
      rw [hidx]
      have : ∀ p ∈ a.masters.enum, (! decide (p.1 ∈ (∅ : Finset Nat))) = true := by
        intro p _
        simp
      rw [List.filter_eq_self.mpr this]
      exact List.enum_map_snd a.masters
    · show newRelsOf a = a.rels
      unfold newRelsOf
      apply List.filter_eq_self.mpr
      intro r hr
      rcases horph r hr with h | h <;> simp [h]
  · unfold shrink_vsdx at hok
    rw [if_pos hm] at hok
    injection hok with hpair
    injection hpair with h1 h2
    rw [← h2]
    exact ⟨rfl, rfl⟩

/-- The archive of the C4 witness: both masters are referenced (one by
name, one by id), every relationship entry is referenced. -/
def archRoundtrip : Archive :=
  { hasMastersXml := true
    catalogNs := VISIO_NS
    masters :=
      [⟨some "1", some "A", some ⟨some "rId1", none, []⟩⟩,
       ⟨some "2", some "B", some ⟨some "rId2", none, []⟩⟩]
    hasRelsFile := true
    relsNs := PKG_REL_NS
    rels := [⟨some "rId1", some "master1.xml"⟩, ⟨some "rId2", some "master2.xml"⟩]
    hasPagesDir := true
    pages := ["USE(\"A\") and <Shape Master=\"2\"/>"]
    masterDirFiles := [("masters.xml", 0), ("master1.xml", 0), ("master2.xml", 0)]
    size := 0 }

/-- Witness for the amended C4 at `archRoundtrip`. -/
theorem shrink_roundtrip_safety_witness :
    (shrinkOutput (fun _ => 0) archRoundtrip).masters = archRoundtrip.masters ∧
    (shrinkOutput (fun _ => 0) archRoundtrip).rels = archRoundtrip.rels :=
  shrink_roundtrip_safety (fun _ => 0) archRoundtrip
    (shrinkResultOf (fun _ => 0) archRoundtrip)
    (shrinkOutput (fun _ => 0) archRoundtrip) rfl (by decide) (by decide)

/-! ## Claim C1: soundness of pruning -/

theorem nodup_map_get?_inj {α β : Type} (f : α → β) (l : List α)
    (hnd : (l.map f).Nodup) {i j : Nat} {x y : α}
    (hi : l.get? i = some x) (hj : l.get? j = some y) (hf : f x = f y) :
    i = j := by
  obtain ⟨hi', hgi⟩ := List.get?_eq_some.mp hi
  obtain ⟨hj', hgj⟩ := List.get?_eq_some.mp hj
  have hi2 : i < (l.map f).length := by simpa using hi'
  have hj2 : j < (l.map f).length := by simpa using hj'
  have hfin : (⟨i, hi2⟩ : Fin (l.map f).length) = ⟨j, hj2⟩ := by
    apply hnd.get_inj_iff.mp
    have e1 : (l.map f).get ⟨i, hi2⟩ = f (l.get ⟨i, hi'⟩) := by
      simp
    have e2 : (l.map f).get ⟨j, hj2⟩ = f (l.get ⟨j, hj'⟩) := by
      simp
    rw [e1, e2, hgi, hgj, hf]
  exact congrArg Fin.val hfin

/-- The data-model invariants the specification states for a valid
archive (§3): the catalog exists and validates; every entry has a
unique non-empty name and a unique non-empty relationship-id that
resolves in the relationship index; relationship entries have non-empty
ids and targets, with unique targets that follow the backing-file
naming convention. -/
def SpecInvariants (a : Archive) : Prop :=
  a.hasMastersXml = true ∧
  validate_vsdx_structure a = [] ∧
  (∀ m ∈ a.masters, nameOf m ≠ "") ∧
  (a.masters.map nameOf).Nodup ∧
  (∀ m ∈ a.masters, get_rel_id m.rel ≠ "") ∧
  (a.masters.map (fun m => get_rel_id m.rel)).Nodup ∧
  (∀ m ∈ a.masters, (dget? (relsInfoOf a) (get_rel_id m.rel)).isSome = true) ∧
  (∀ r ∈ a.rels, r.idAttr.getD "" ≠ "" ∧ r.target.getD "" ≠ "") ∧
  (a.rels.map (fun r => r.target.getD "")).Nodup ∧
  (∀ r ∈ a.rels, matchesMasterGlob (r.target.getD "") = true ∧
    r.target.getD "" ≠ "masters.xml")

theorem mem_removedIdxs_iff (a : Archive)
    (hnames : ∀ m ∈ a.masters, nameOf m ≠ "")
    (hnd : (a.masters.map nameOf).Nodup)
    {j : Nat} {m : Master} (hget : a.masters.get? j = some m) :
    j ∈ removedIdxsOf a ↔ nameOf m ∈ toRemoveOf a := by
  constructor
  · intro hj
    unfold removedIdxsOf at hj
    obtain ⟨n, hn, hidx⟩ := Finset.mem_image.mp hj
    obtain ⟨hnrem, hsome⟩ := Finset.mem_filter.mp hn
    obtain ⟨v, hv⟩ := Option.isSome_iff_exists.mp hsome
    rw [hv] at hidx
    simp at hidx
    obtain ⟨m', hm', hnm', -, -⟩ := dget_infoOf_some a hv
    rw [hidx, hget] at hm'
    injection hm' with hm'
    subst hm'
    rw [hnm']
    exact hnrem
  · intro hrem
    have hmem : m ∈ a.masters := List.get?_mem hget
    have hkeys : nameOf m ∈ allNamesOf a := mem_allNamesOf a hmem (hnames m hmem)
    have hsome : (dget? (infoOf a) (nameOf m)).isSome := by
      rw [dget?_isSome_iff_mem_keys]
      exact hkeys
    obtain ⟨v, hv⟩ := Option.isSome_iff_exists.mp hsome
    obtain ⟨m', hm', hnm', -, -⟩ := dget_infoOf_some a hv
    have hidx : v.idx = j :=
      nodup_map_get?_inj nameOf a.masters hnd hm' hget hnm'
    unfold removedIdxsOf
    apply Finset.mem_image.mpr
    refine ⟨nameOf m, Finset.mem_filter.mpr ⟨hrem, hsome⟩, ?_⟩
    rw [hv]
    simpa using hidx

theorem newMasters_eq_filter (a : Archive)
    (hnames : ∀ m ∈ a.masters, nameOf m ≠ "")
    (hnd : (a.masters.map nameOf).Nodup) :
    newMastersOf a = a.masters.filter (fun m => decide (nameOf m ∈ usedOf a)) := by
  unfold newMastersOf
  show ((List.enumFrom 0 a.masters).filter _).map Prod.snd = _
  apply enumFrom_filter_map_snd
  intro j m hget
  rw [Nat.zero_add]
  have hiff := mem_removedIdxs_iff a hnames hnd hget
  have hmem : m ∈ a.masters := List.get?_mem hget
  have hall : nameOf m ∈ allNamesOf a := mem_allNamesOf a hmem (hnames m hmem)
  by_cases hu : nameOf m ∈ usedOf a
  · have hnR : j ∉ removedIdxsOf a := by
      rw [hiff]
      unfold toRemoveOf
      simp [hu]
    simp [hnR, hu]
  · have hR : j ∈ removedIdxsOf a := by
      rw [hiff]
      unfold toRemoveOf
      exact Finset.mem_sdiff.mpr ⟨hall, hu⟩
    simp [hR, hu]

theorem keepRelIds_represented (a : Archive)
    (hres : ∀ m ∈ a.masters, (dget? (relsInfoOf a) (get_rel_id m.rel)).isSome = true) :
    ∀ x ∈ keepRelIdsOf a, ∃ r ∈ a.rels, r.idAttr.getD "" = x := by
  intro x hx
  unfold keepRelIdsOf at hx
  obtain ⟨n, hn, hxeq⟩ := Finset.mem_image.mp hx
  obtain ⟨-, hsome⟩ := Finset.mem_filter.mp hn
  obtain ⟨v, hv⟩ := Option.isSome_iff_exists.mp hsome
  rw [hv] at hxeq
  simp at hxeq
  obtain ⟨m, hmget, -, -, hrid⟩ := dget_infoOf_some a hv
  have hmem : m ∈ a.masters := List.get?_mem hmget
  obtain ⟨t, ht⟩ := Option.isSome_iff_exists.mp (hres m hmem)
  obtain ⟨r, hrmem, hr1, -, -, -⟩ := dget_relsInfoOf_some a ht
  exact ⟨r, hrmem, by rw [hr1, ← hrid, hxeq]⟩

theorem newRels_toFinset_eq (a : Archive)
    (hrids : ∀ r ∈ a.rels, r.idAttr.getD "" ≠ "")
    (hkeep : ∀ x ∈ keepRelIdsOf a, ∃ r ∈ a.rels, r.idAttr.getD "" = x) :
    ((newRelsOf a).map (fun r => r.idAttr.getD "")).toFinset = keepRelIdsOf a := by
  ext x
  simp only [List.mem_toFinset, List.mem_map]
  constructor
  · rintro ⟨r, hr, rfl⟩
    unfold newRelsOf at hr
    have hr' := List.mem_filter.mp hr
    have hcond := hr'.2
    simp only [Bool.or_eq_true, decide_eq_true_eq] at hcond
    rcases hcond with h | h
    · exact absurd h (hrids r hr'.1)
    · exact h
  · intro hx
    obtain ⟨r, hrmem, hrid⟩ := hkeep x hx
    refine ⟨r, ?_, hrid⟩
    unfold newRelsOf
    apply List.mem_filter.mpr
    refine ⟨hrmem, ?_⟩
    simp [hrid, hx]

theorem relsInfo_target_inj (a : Archive)
    (hnd : (a.rels.map (fun r => r.target.getD "")).Nodup)
    {k1 k2 t : String} (h1 : dget? (relsInfoOf a) k1 = some t)
    (h2 : dget? (relsInfoOf a) k2 = some t) : k1 = k2 := by
  obtain ⟨r1, hm1, hid1, ht1, -, -⟩ := dget_relsInfoOf_some a h1
  obtain ⟨r2, hm2, hid2, ht2, -, -⟩ := dget_relsInfoOf_some a h2
  have hr12 : r1 = r2 := List.inj_on_of_nodup_map hnd hm1 hm2 (by rw [ht1, ht2])
  rw [← hid1, ← hid2, hr12]

/-- The archive of the C1 counterexample: it passes validation, yet its
legacy entry (empty `NameU`) survives shrinking although its name is
not in `used_names`. -/
def archLegacyKept : Archive :=
  { hasMastersXml := true
    catalogNs := VISIO_NS
    masters :=
      [⟨some "1", some "A", some ⟨some "rId1", none, []⟩⟩,
       ⟨some "2", some "", some ⟨some "rId2", none, []⟩⟩]
    hasRelsFile := true
    relsNs := PKG_REL_NS
    rels := [⟨some "rId1", some "master1.xml"⟩, ⟨some "rId2", some "master2.xml"⟩]
    hasPagesDir := true
    pages := ["USE(\"A\")"]
    masterDirFiles := [("masters.xml", 0), ("master1.xml", 0), ("master2.xml", 0)]
    size := 0 }

/-- Counterexample to C1 as stated: `archLegacyKept` passes validation
(so it is a valid archive for the program), but after shrinking the
catalog still contains its legacy entry, whose (empty) name is not in
`used_names` — the catalog does not consist exactly of the entries whose
names are in `used_names`. -/
theorem shrink_keeps_legacy_entry :
    validate_vsdx_structure archLegacyKept = [] ∧
    ((shrink_vsdx (fun _ => 0) archLegacyKept).toOption.map
      (fun p => p.2.masters)) = some archLegacyKept.masters ∧
    (∃ m ∈ archLegacyKept.masters, nameOf m ∉ usedOf archLegacyKept) := by
  refine ⟨by decide, rfl,
    ⟨⟨some "2", some "", some ⟨some "rId2", none, []⟩⟩, by decide, by decide⟩⟩

/-- Claim C1, amended: for every archive satisfying the specification's
data-model invariants, after shrinking the catalog contains exactly the
entries whose names are in `used_names`, the relationship index
contains exactly the relationship-ids recorded for the retained
entries (`keep_rel_ids`), and no backing file resolved from a removed
entry's relationship-id remains in the masters directory. -/
theorem shrink_soundness_of_pruning (z : Archive → Nat) (a : Archive)
    (res : ShrinkResult) (out : Archive)
    (hok : shrink_vsdx z a = .ok (res, out)) (hinv : SpecInvariants a) :
    out.masters = a.masters.filter (fun m => decide (nameOf m ∈ usedOf a)) ∧
    ((out.rels.map (fun r => r.idAttr.getD "")).toFinset = keepRelIdsOf a) ∧
    (∀ m ∈ a.masters, nameOf m ∉ usedOf a →
      ∀ t, dget? (relsInfoOf a) (get_rel_id m.rel) = some t →
        ∀ p ∈ out.masterDirFiles, p.1 ≠ t) := by
  obtain ⟨hm, -, hnames, hndnames, -, hndrel, hres, hrids, hndtgt, hglob⟩ := hinv
  obtain ⟨-, -, hout⟩ := shrink_ok_inv hm hok
  subst hout
  refine ⟨newMasters_eq_filter a hnames hndnames, ?_, ?_⟩
  · exact newRels_toFinset_eq a (fun r hr => (hrids r hr).1)
      (keepRelIds_represented a hres)
  · intro m hmem hnotused t ht p hp heq
    have hp2 : p ∈ newFilesOf a := hp
    unfold newFilesOf at hp2
    have hp' := List.mem_filter.mp hp2
    have hcond := hp'.2
    rw [heq] at hcond
    unfold deletedFile at hcond
    obtain ⟨r, hrmem, -, hrt, -, -⟩ := dget_relsInfoOf_some a ht
    have hg : matchesMasterGlob t = true := by
      rw [← hrt]; exact (hglob r hrmem).1
    have hnem : t ≠ "masters.xml" := by
      rw [← hrt]; exact (hglob r hrmem).2
    have htkeep : t ∈ keepFilesOf a := by
      by_contra hk
      simp [hg, hnem, hk] at hcond
    unfold keepFilesOf at htkeep
    obtain ⟨rid', hrid', hteq⟩ := Finset.mem_image.mp htkeep
    obtain ⟨hridkeep, hsome'⟩ := Finset.mem_filter.mp hrid'
    obtain ⟨t', ht'⟩ := Option.isSome_iff_exists.mp hsome'
    rw [ht'] at hteq
    simp at hteq
    rw [hteq] at ht'
    have hkk : get_rel_id m.rel = rid' := relsInfo_target_inj a hndtgt ht ht'
    unfold keepRelIdsOf at hridkeep
    obtain ⟨n, hn, hneq⟩ := Finset.mem_image.mp hridkeep
    obtain ⟨hnused, hsomen⟩ := Finset.mem_filter.mp hn
    obtain ⟨v, hv⟩ := Option.isSome_iff_exists.mp hsomen
    rw [hv] at hneq
    simp at hneq
    obtain ⟨m2, hm2get, hm2name, -, hm2rid⟩ := dget_infoOf_some a hv
    obtain ⟨im, himget⟩ := List.mem_iff_get?.mp hmem
    have hidx : v.idx = im :=
      nodup_map_get?_inj (fun m => get_rel_id m.rel) a.masters hndrel hm2get
        himget (by show get_rel_id m2.rel = get_rel_id m.rel
                   rw [← hm2rid, hneq, ← hkk])
    rw [hidx, himget] at hm2get
    injection hm2get with hm2get
    rw [← hm2name, ← hm2get] at hnused
    exact hnotused hnused

/-- Witness for the amended C1 at the specification's example archive:
`C` is removed, `rId3` leaves the index, `master3.xml` is deleted. -/
theorem shrink_soundness_of_pruning_witness :
    (shrinkOutput (fun _ => 0) archEx).masters =
      archEx.masters.filter (fun m => decide (nameOf m ∈ usedOf archEx)) ∧
    (((shrinkOutput (fun _ => 0) archEx).rels.map
      (fun r => r.idAttr.getD "")).toFinset = keepRelIdsOf archEx) ∧
    (∀ m ∈ archEx.masters, nameOf m ∉ usedOf archEx →
      ∀ t, dget? (relsInfoOf archEx) (get_rel_id m.rel) = some t →
        ∀ p ∈ (shrinkOutput (fun _ => 0) archEx).masterDirFiles, p.1 ≠ t) :=
  shrink_soundness_of_pruning (fun _ => 0) archEx
    (shrinkResultOf (fun _ => 0) archEx) (shrinkOutput (fun _ => 0) archEx) rfl
    (by unfold SpecInvariants; decide)

end VsdxShrinker
